import Mathlib

/-!
Verification of the sizer disk-usage tool (src/main.go) against its
natural-language specification.

The program reports the disk footprint of a directory: `listRootWithSizes`
reads the immediate children of the root, sizes immediate files inline,
dispatches immediate subdirectories to a worker pool that runs `sizeDir`
(a `filepath.WalkDir` traversal), merges the results, and sorts the entry
list by size descending.  `formatBytes` renders a byte count with a
1024-based unit suffix.

The embedding below models the filesystem a scan observes as a tree
(`FSNode`), with explicit flags for the I/O failures the code can meet:
`infoOk` models whether `DirEntry.Info()` succeeds for a file or symlink,
and `readable` models whether reading a directory (`os.ReadDir`) succeeds.
All observations are lstat-based (Go's `os.ReadDir` / `WalkDir` never
follow symbolic links), so a symlink is never a directory and carries its
own lstat size.  The worker pool delivers subdirectory results in a
nondeterministic completion order; that order is an explicit parameter
(`order`), which in any actual run is a permutation of the dispatched
directory list.
-/

namespace Sizer

/-- Hidden-name test used at both levels of the program
(main.go line 115: `len(dirEntry.Name()) > 0 && dirEntry.Name()[0] == '.'`,
and line 244 on `filepath.Base(path)`).  The first byte of a name is `.`
exactly when its first character is, since `.` is a one-byte rune. -/
def isHidden (name : String) : Bool := name.length != 0 && name.front == '.'

/-- Node of the filesystem tree as the program observes it (lstat-based).
`size` on a file or symlink is the lstat size (for a symlink: the size of
the link object itself, not of its target).  `infoOk` models whether
`DirEntry.Info()` succeeds on the entry; `readable` models whether the
directory can be read (`os.ReadDir`). -/
inductive FSNode where
  | file (name : String) (size : Nat) (infoOk : Bool)
  | symlink (name : String) (size : Nat) (infoOk : Bool)
  | dir (name : String) (readable : Bool) (children : List FSNode)

/-- Base name of a node (`dirEntry.Name()` / `filepath.Base(path)`). -/
def FSNode.name : FSNode → String
  | .file n _ _ => n
  | .symlink n _ _ => n
  | .dir n _ _ => n

/-- Result of Go's `d.IsDir()` on the lstat-based entry: true only for a
real directory, never for a symlink (even one pointing at a directory). -/
def FSNode.isDirNode : FSNode → Bool
  | .dir _ _ _ => true
  | _ => false

/-- Lstat size reported by `info.Size()` for a non-directory entry. -/
def FSNode.lstatSize : FSNode → Nat
  | .file _ s _ => s
  | .symlink _ s _ => s
  | .dir _ _ _ => 0

/-- Whether `DirEntry.Info()` succeeds on the entry. -/
def FSNode.infoOk : FSNode → Bool
  | .file _ _ ok => ok
  | .symlink _ _ ok => ok
  | .dir _ _ _ => true

mutual

/-- Tree without any I/O failure: every `Info()` call succeeds and every
directory is readable.  This captures the spec's static, fully accessible
filesystem, on which claims about exact totals are made. -/
def errFree : FSNode → Bool
  | .file _ _ ok => ok
  | .symlink _ _ ok => ok
  | .dir _ readable cs => readable && errFreeList cs

/-- All nodes of the list are `errFree`. -/
def errFreeList : List FSNode → Bool
  | [] => true
  | c :: cs => errFree c && errFreeList cs

end

/-! ### The byte formatter (main.go lines 21-32)

The Go function renders a string; the embedding keeps the output
structured.  `plain b` stands for `fmt.Sprintf("%d B", b)` (an integer
count of bytes, no scaling) and `scaled b div suffix` stands for
`fmt.Sprintf("%.1f %cB", float64(b)/float64(div), suffix)`: the value
`b/div` printed with exactly one decimal place and the magnitude suffix
chosen from `"KMGTPE"`.  The floating-point digits themselves are not
modelled; the branch selection, the divisor, and the suffix index are.
`suffix` is an `Option` because Go's `"KMGTPE"[exp]` would panic if `exp`
were out of range; `none` models that (unreachable) panic. -/

/-- Structured form of the string `formatBytes` produces. -/
inductive ByteFormat where
  | plain (b : Int)
  | scaled (b : Int) (div : Nat) (suffix : Option Char)
deriving DecidableEq, Repr

/-- Characters of the Go string constant `"KMGTPE"`. -/
def byteUnits : List Char := ['K', 'M', 'G', 'T', 'P', 'E']

/-- Loop of `formatBytes` (main.go lines 26-30):
`for n := b / unit; n >= unit; n /= unit { div *= unit; exp++ }`,
started with `n = b / 1024`, `div = 1024`, `exp = 0`. -/
def divExpLoop (n div exp : Nat) : Nat × Nat :=
  if h : 1024 ≤ n then divExpLoop (n / 1024) (div * 1024) (exp + 1)
  else (div, exp)
decreasing_by exact Nat.div_lt_self (by omega) (by omega)

/-- Number of iterations of the `formatBytes` loop on `n`: how many times
`n` can be divided by 1024 before falling below 1024. -/
def logd (n : Nat) : Nat :=
  if h : 1024 ≤ n then logd (n / 1024) + 1
  else 0
decreasing_by exact Nat.div_lt_self (by omega) (by omega)

/-- The `exp` computed by `formatBytes` for input `b` (meaningful when
`1024 ≤ b`). -/
def fbExp (b : Int) : Nat := (divExpLoop (b.toNat / 1024) 1024 0).2

/-- formatBytes (main.go lines 21-32), with the output kept structured.
Inputs below 1024 — including every negative int64 — take the plain
branch; otherwise the loop computes `div` and `exp` and the suffix is
`"KMGTPE"[exp]`. -/
def formatBytes (b : Int) : ByteFormat :=
  if b < 1024 then ByteFormat.plain b
  else
    ByteFormat.scaled b (divExpLoop (b.toNat / 1024) 1024 0).1
      (byteUnits.get? (divExpLoop (b.toNat / 1024) 1024 0).2)

/-! ### The subtree sizer `sizeDir` (main.go lines 234-269)

`sizeDir` runs `filepath.WalkDir` with a callback that accumulates
`(total, count)`.  Go's `WalkDir` calls the callback on the walk root
first; on a directory whose `ReadDir` fails it calls the callback a second
time with the error; a `filepath.SkipDir` returned for a directory is
converted to nil by the walker, and a `SkipDir` bubbling out of a child
stops the sibling loop.  The only non-nil value this callback ever
returns is `filepath.SkipDir`, so that is the only error value modelled. -/

/-- Error values flowing through the walk: the callback in `sizeDir`
returns either nil (`none`) or `filepath.SkipDir`. -/
inductive GoErr where
  | skipDir
deriving DecidableEq, Repr

/-- Callback passed to `filepath.WalkDir` in `sizeDir`
(main.go lines 237-267), acting on the state `st = (total, count)`.
`base` is `filepath.Base(path)`; `errIn` is the `err` argument supplied by
the walker; `isDir`, `isSymlink`, `infoOk`, `size` describe the visited
entry.  Branches in source order: swallow an incoming error (238-240);
skip hidden entries, pruning a hidden directory (243-249); directories
contribute nothing themselves (251-253); a symlink counts one unit and no
bytes (255-258); an `Info()` failure skips the entry (260-263); a regular
file adds its size and counts one unit (264-265). -/
def sizeDirCallback (showAll : Bool) (base : String) (isDir isSymlink : Bool)
    (errIn : Bool) (infoOk : Bool) (size : Nat) (st : Nat × Nat) :
    (Nat × Nat) × Option GoErr :=
  if errIn then (st, none)
  else if !showAll && isHidden base then
    (if isDir then (st, some .skipDir) else (st, none))
  else if isDir then (st, none)
  else if isSymlink then ((st.1, st.2 + 1), none)
  else if !infoOk then (st, none)
  else ((st.1 + size, st.2 + 1), none)

mutual

/-- Go's recursive `path/filepath.walkDir` helper specialised to the
`sizeDir` callback, threading the `(total, count)` state.  For a
non-directory the callback's result is returned as is.  For a directory:
the callback runs first (a `SkipDir` it returns is turned into nil,
pruning the subtree); if `ReadDir` fails the callback is invoked again
with the error (whose nil answer swallows the failure and no children are
walked — an unreadable directory yields no entries); otherwise the
children are walked in order. -/
def walkDirNode (showAll : Bool) (st : Nat × Nat) : FSNode → (Nat × Nat) × Option GoErr
  | .file name size infoOk =>
      sizeDirCallback showAll name false false false infoOk size st
  | .symlink name size infoOk =>
      sizeDirCallback showAll name false true false infoOk size st
  | .dir name readable children =>
      match sizeDirCallback showAll name true false false true 0 st with
      | (st1, some .skipDir) => (st1, none)
      | (st1, none) =>
        if readable then walkDirList showAll st1 children
        else
          match sizeDirCallback showAll name true false true true 0 st1 with
          | (st2, some .skipDir) => (st2, none)
          | (st2, none) => (st2, none)

/-- Loop over a directory's entries inside Go's `walkDir`: a `SkipDir`
returned by a child stops the loop and is absorbed (the directory itself
reports nil). -/
def walkDirList (showAll : Bool) (st : Nat × Nat) : List FSNode → (Nat × Nat) × Option GoErr
  | [] => (st, none)
  | c :: cs =>
      match walkDirNode showAll st c with
      | (st1, some .skipDir) => (st1, none)
      | (st1, none) => walkDirList showAll st1 cs

end

/-- sizeDir (main.go lines 234-268): `filepath.WalkDir` from `root` with
the accumulating callback; returns `((total, count), err)`.  `rootStatOk`
models whether the initial `os.Lstat(root)` inside `WalkDir` succeeds;
when it fails the callback is invoked once with the error (and a nil
`DirEntry`), and its nil answer is what `WalkDir` returns.  A final
`SkipDir` is converted to nil by `WalkDir`. -/
def sizeDir (root : FSNode) (showAll : Bool) (rootStatOk : Bool) :
    (Nat × Nat) × Option GoErr :=
  if rootStatOk then
    match walkDirNode showAll (0, 0) root with
    | (st, some .skipDir) => (st, none)
    | (st, none) => (st, none)
  else
    sizeDirCallback showAll "" false false true true 0 (0, 0)

/-! ### The root lister / aggregator `listRootWithSizes` (main.go lines 100-232) -/

/-- Entry (main.go lines 15-19).  The Go field `Type` ("file" or "dir")
is called `kind` here (`Type` is reserved in Lean). -/
structure Entry where
  name : String
  size : Nat
  kind : String
deriving DecidableEq, Repr, Inhabited

/-- Treatment of one immediate child by the first loop of
`listRootWithSizes` (main.go lines 113-137): hidden entries are skipped
unless `showAll` (115-117); directories are set aside for the pool
(119-120); any other entry — a regular file or a symlink, which is not a
directory — is stat'ed, skipped if `Info()` fails (123-126), and
otherwise becomes a `file` entry carrying `info.Size()` (128-132). -/
def rootFileEntry (showAll : Bool) (n : FSNode) : Option Entry :=
  if !showAll && isHidden n.name then none
  else if n.isDirNode then none
  else if n.infoOk then some ⟨n.name, n.lstatSize, "file"⟩
  else none

/-- First loop of `listRootWithSizes` restricted to its file side
(main.go lines 113-137): the produced entries in listing order, the bytes
added to `totalSize` (134) and the units added to `totalCount` (135). -/
def rootFilesAcc (showAll : Bool) : List FSNode → List Entry × Nat × Nat
  | [] => ([], 0, 0)
  | n :: ns =>
      let rest := rootFilesAcc showAll ns
      match rootFileEntry showAll n with
      | none => rest
      | some e => (e :: rest.1, e.size + rest.2.1, 1 + rest.2.2)

/-- Directories collected for the worker pool by the same loop
(main.go lines 113-121): non-hidden (or `showAll`) immediate children
with `IsDir()` true, in listing order. -/
def rootDirs (showAll : Bool) (children : List FSNode) : List FSNode :=
  children.filter (fun n => (showAll || !isHidden n.name) && n.isDirNode)

/-- Result-draining loop of `listRootWithSizes` (main.go lines 203-220),
processing the subdirectory results in the order given by the argument —
the workers' completion order, which is nondeterministic and in any run a
permutation of the dispatched `rootDirs`.  Each worker ran
`sizeDir(entryPath, showAll)` (line 172) on a path that was just listed,
so the walk-root lstat succeeds.  A result carrying a non-nil error is
dropped (213-215); otherwise its `dir` entry (whose `Size` is the bytes
`sizeDir` returned, lines 174-183) is added and the totals grow (217-219). -/
def processDirResults (showAll : Bool) : List FSNode → List Entry × Nat × Nat
  | [] => ([], 0, 0)
  | n :: ds =>
      let r := sizeDir n showAll true
      let rest := processDirResults showAll ds
      match r.2 with
      | some _ => rest
      | none => (⟨n.name, r.1.1, "dir"⟩ :: rest.1, r.1.1 + rest.2.1, r.1.2 + rest.2.2)

/-- Final sort (main.go lines 223-226):
`sort.Slice(entries, func(i, j) { return entries[i].Size > entries[j].Size })`.
`sort.Slice` is an unstable sort whose postcondition is only that no later
entry has a strictly larger size; it is modelled by a merge sort under the
total relation "left size at least right size" (any order among equal
sizes satisfies the same postcondition). -/
def sortEntries (es : List Entry) : List Entry :=
  es.mergeSort (fun a b => Nat.ble b.size a.size)

/-- listRootWithSizes (main.go lines 100-232) after its `os.ReadDir(root)`
succeeded with `children`: file entries and file totals from the first
loop, subdirectory entries and totals merged in completion `order`, and
the combined entry list sorted by size descending.  Result:
`(entries, totalSize, totalCount)` (line 231). -/
def scanCore (showAll : Bool) (children order : List FSNode) :
    List Entry × Nat × Nat :=
  let f := rootFilesAcc showAll children
  let d := processDirResults showAll order
  (sortEntries (f.1 ++ d.1), f.2.1 + d.2.1, f.2.2 + d.2.2)

/-- listRootWithSizes including the fatal path (main.go lines 106-109): a
failure of `os.ReadDir(root)` returns `(nil, 0, 0, err)`, modelled as
`none`; otherwise the scan result is returned with a nil error. -/
def listRootWithSizes (rootReadable : Bool) (showAll : Bool)
    (children order : List FSNode) : Option (List Entry × Nat × Nat) :=
  if rootReadable then some (scanCore showAll children order) else none

/-! ### Pure summary of the walk, and spec-side definitions -/

mutual

/-- Bytes and units the `sizeDir` walk adds for one visited node: the
functional summary of `walkDirNode` with the accumulator removed (related
to it by `walkDirNode_eq` below).  A hidden node is skipped (a hidden
directory prunes its branch); a symlink adds `(0, 1)`; a file adds
`(size, 1)` when its `Info()` succeeds and nothing otherwise; a readable
directory adds what its children add; an unreadable one adds nothing. -/
def walkSums (showAll : Bool) : FSNode → Nat × Nat
  | .file name size infoOk =>
      if !showAll && isHidden name then (0, 0)
      else if infoOk then (size, 1) else (0, 0)
  | .symlink name _ _ =>
      if !showAll && isHidden name then (0, 0) else (0, 1)
  | .dir name readable cs =>
      if !showAll && isHidden name then (0, 0)
      else if readable then walkSumsList showAll cs else (0, 0)

/-- Sum of `walkSums` over a list of siblings. -/
def walkSumsList (showAll : Bool) : List FSNode → Nat × Nat
  | [] => (0, 0)
  | c :: cs =>
      ((walkSums showAll c).1 + (walkSumsList showAll cs).1,
       (walkSums showAll c).2 + (walkSumsList showAll cs).2)

end

mutual

/-- Spec-side definition, following the specification's words: the sum of
the sizes of every non-hidden regular file reachable from the node, where
a hidden node excluded by `includeHidden = false` is pruned together with
its entire subtree, recursively at every depth; symbolic links and
directories themselves contribute no bytes. -/
def specSize (showAll : Bool) : FSNode → Nat
  | .file name size _ => if showAll || !isHidden name then size else 0
  | .symlink _ _ _ => 0
  | .dir name _ cs => if showAll || !isHidden name then specSizeList showAll cs else 0

/-- Sum of `specSize` over a list of siblings. -/
def specSizeList (showAll : Bool) : List FSNode → Nat
  | [] => 0
  | c :: cs => specSize showAll c + specSizeList showAll cs

end

mutual

/-- Spec-side definition, following the specification's words: the number
of non-hidden regular files plus non-hidden symbolic links reachable from
the node, with the same recursive hidden pruning; directories themselves
are never counted. -/
def specCount (showAll : Bool) : FSNode → Nat
  | .file name _ _ => if showAll || !isHidden name then 1 else 0
  | .symlink name _ _ => if showAll || !isHidden name then 1 else 0
  | .dir name _ cs => if showAll || !isHidden name then specCountList showAll cs else 0

/-- Sum of `specCount` over a list of siblings. -/
def specCountList (showAll : Bool) : List FSNode → Nat
  | [] => 0
  | c :: cs => specCount showAll c + specCountList showAll cs

end

/-- Lstat sizes of the non-hidden immediate-child symlinks of the root:
the bytes the root loop adds for symlinks it meets directly (they are not
directories, so they take the file branch of main.go lines 121-136). -/
def immSymSizes (showAll : Bool) : List FSNode → Nat
  | [] => 0
  | FSNode.symlink name size _ :: ns =>
      (if showAll || !isHidden name then size else 0) + immSymSizes showAll ns
  | _ :: ns => immSymSizes showAll ns

/-- Entry produced for one subdirectory result (main.go lines 174-183):
the directory's name, `Size` set to the bytes `sizeDir` returned, kind
`dir`. -/
def dirEntryOf (showAll : Bool) (n : FSNode) : Entry :=
  ⟨n.name, (walkSums showAll n).1, "dir"⟩

/-! ### Helper lemmas -/

mutual

/-- Characterisation of the walk on one node: the state grows by
`walkSums` and the reported error is always nil — the callback swallows
every incoming error and the walker absorbs every `SkipDir` it produces. -/
theorem walkDirNode_eq (showAll : Bool) (st : Nat × Nat) (t : FSNode) :
    walkDirNode showAll st t =
      ((st.1 + (walkSums showAll t).1, st.2 + (walkSums showAll t).2), none) := by
  cases t with
  | file name size ok =>
      by_cases hh : (!showAll && isHidden name) = true <;>
        cases ok <;> simp [walkDirNode, sizeDirCallback, walkSums, hh]
  | symlink name size ok =>
      by_cases hh : (!showAll && isHidden name) = true <;>
        simp [walkDirNode, sizeDirCallback, walkSums, hh]
  | dir name readable cs =>
      by_cases hh : (!showAll && isHidden name) = true
      · simp [walkDirNode, sizeDirCallback, walkSums, hh]
      · cases readable with
        | true =>
            have h1 := walkDirList_eq showAll st cs
            simp [walkDirNode, sizeDirCallback, walkSums, hh, h1]
        | false =>
            simp [walkDirNode, sizeDirCallback, walkSums, hh]

/-- Characterisation of the sibling loop: state grows by `walkSumsList`,
error always nil (no child ever reports `SkipDir` upward, so the loop
never breaks early). -/
theorem walkDirList_eq (showAll : Bool) (st : Nat × Nat) (cs : List FSNode) :
    walkDirList showAll st cs =
      ((st.1 + (walkSumsList showAll cs).1, st.2 + (walkSumsList showAll cs).2), none) := by
  cases cs with
  | nil => simp [walkDirList, walkSumsList]
  | cons c cs =>
      have h1 := walkDirNode_eq showAll st c
      have h2 := walkDirList_eq showAll
        (st.1 + (walkSums showAll c).1, st.2 + (walkSums showAll c).2) cs
      simp [walkDirList, h1, h2, walkSumsList, Nat.add_assoc]

end

/-- With a successful root lstat, `sizeDir` returns the `walkSums` totals
and a nil error. -/
theorem sizeDir_eq (root : FSNode) (showAll : Bool) :
    sizeDir root showAll true = (walkSums showAll root, none) := by
  have h := walkDirNode_eq showAll (0, 0) root
  simp only [sizeDir, if_pos trivial, h]
  simp

/-- With a failed root lstat, `sizeDir` returns zero totals and a nil
error (the callback's error branch swallows the lstat failure). -/
theorem sizeDir_noStat (root : FSNode) (showAll : Bool) :
    sizeDir root showAll false = ((0, 0), none) := by
  simp [sizeDir, sizeDirCallback]

/-- Summing the walk over an appended sibling list. -/
theorem walkSumsList_append (showAll : Bool) (l1 l2 : List FSNode) :
    walkSumsList showAll (l1 ++ l2) =
      ((walkSumsList showAll l1).1 + (walkSumsList showAll l2).1,
       (walkSumsList showAll l1).2 + (walkSumsList showAll l2).2) := by
  induction l1 with
  | nil => simp [walkSumsList]
  | cons c cs ih => simp [walkSumsList, ih, Nat.add_assoc]

/-- An unreadable directory adds nothing to the walk. -/
theorem walkSums_unreadable (showAll : Bool) (name : String) (cs : List FSNode) :
    walkSums showAll (FSNode.dir name false cs) = (0, 0) := by
  simp [walkSums]

/-- A file whose `Info()` fails adds nothing to the walk. -/
theorem walkSums_fileErr (showAll : Bool) (name : String) (size : Nat) :
    walkSums showAll (FSNode.file name size false) = (0, 0) := by
  simp [walkSums]

/-- Membership form of `errFreeList`. -/
theorem errFreeList_iff (cs : List FSNode) :
    errFreeList cs = true ↔ ∀ c ∈ cs, errFree c = true := by
  induction cs with
  | nil => simp [errFreeList]
  | cons c cs ih => simp [errFreeList, ih]

mutual

/-- On an error-free tree the walk totals agree with the spec-side
reachable-file byte sum and file-plus-symlink count. -/
theorem walkSums_spec (showAll : Bool) (t : FSNode) (h : errFree t = true) :
    walkSums showAll t = (specSize showAll t, specCount showAll t) := by
  cases t with
  | file name size ok =>
      simp [errFree] at h
      cases showAll <;> cases hi : isHidden name <;>
        simp [walkSums, specSize, specCount, h, hi]
  | symlink name size ok =>
      cases showAll <;> cases hi : isHidden name <;>
        simp [walkSums, specSize, specCount, hi]
  | dir name readable cs =>
      simp [errFree, Bool.and_eq_true] at h
      have hrec := walkSumsList_spec showAll cs h.2
      cases showAll <;> cases hi : isHidden name <;>
        simp [walkSums, specSize, specCount, hi, h.1, hrec]

/-- List form of `walkSums_spec`. -/
theorem walkSumsList_spec (showAll : Bool) (cs : List FSNode)
    (h : errFreeList cs = true) :
    walkSumsList showAll cs = (specSizeList showAll cs, specCountList showAll cs) := by
  cases cs with
  | nil => simp [walkSumsList, specSizeList, specCountList]
  | cons c cs =>
      simp [errFreeList, Bool.and_eq_true] at h
      have h1 := walkSums_spec showAll c h.1
      have h2 := walkSumsList_spec showAll cs h.2
      simp [walkSumsList, specSizeList, specCountList, h1, h2]

end

/-- Characterisation of the file side of the root loop: the entries are
the kept children in listing order, the byte total is the sum of their
sizes, and the unit total is their number. -/
theorem rootFilesAcc_eq (showAll : Bool) (ns : List FSNode) :
    rootFilesAcc showAll ns =
      (ns.filterMap (rootFileEntry showAll),
       ((ns.filterMap (rootFileEntry showAll)).map Entry.size).sum,
       (ns.filterMap (rootFileEntry showAll)).length) := by
  induction ns with
  | nil => simp [rootFilesAcc]
  | cons n ns ih =>
      cases he : rootFileEntry showAll n with
      | none => simp [rootFilesAcc, he, ih]
      | some e => simp [rootFilesAcc, he, ih, Nat.add_comm]

/-- Characterisation of the result-draining loop: since `sizeDir` never
reports an error, every dispatched directory yields its entry, and the
totals are the sums of the per-directory walk totals. -/
theorem processDirResults_eq (showAll : Bool) (ds : List FSNode) :
    processDirResults showAll ds =
      (ds.map (dirEntryOf showAll),
       (ds.map (fun n => (walkSums showAll n).1)).sum,
       (ds.map (fun n => (walkSums showAll n).2)).sum) := by
  induction ds with
  | nil => simp [processDirResults]
  | cons n ds ih =>
      simp [processDirResults, sizeDir_eq, ih, dirEntryOf]

/-- Sorting permutes the entry list. -/
theorem sortEntries_perm (es : List Entry) : (sortEntries es).Perm es :=
  List.mergeSort_perm es _

/-- Sortedness of the final entry list: sizes are non-increasing. -/
theorem sortEntries_sorted (es : List Entry) :
    (sortEntries es).Pairwise (fun a b => b.size ≤ a.size) := by
  unfold sortEntries
  have h := List.sorted_mergeSort
    (fun (a b c : Entry) (h1 : Nat.ble b.size a.size = true)
        (h2 : Nat.ble c.size b.size = true) => by
          simp [Nat.ble_eq] at h1 h2 ⊢; omega)
    (fun (a b : Entry) => by simp [Nat.ble_eq]; omega)
    es
  exact h.imp (fun hab => by simpa [Nat.ble_eq] using hab)

/-- Step equation for the dispatched-directory list. -/
theorem rootDirs_cons (showAll : Bool) (n : FSNode) (ns : List FSNode) :
    rootDirs showAll (n :: ns) =
      if (showAll || !isHidden n.name) && n.isDirNode then n :: rootDirs showAll ns
      else rootDirs showAll ns := by
  simp [rootDirs, List.filter_cons]

/-- Byte bookkeeping of a whole error-free scan: the bytes of the file
loop plus the bytes of the dispatched subdirectory walks equal the
spec-side reachable-file byte sum plus the lstat sizes of the non-hidden
immediate symlinks. -/
theorem rootTotals_size (showAll : Bool) (ns : List FSNode)
    (h : errFreeList ns = true) :
    (rootFilesAcc showAll ns).2.1 +
      ((rootDirs showAll ns).map (fun n => (walkSums showAll n).1)).sum =
    specSizeList showAll ns + immSymSizes showAll ns := by
  induction ns with
  | nil => simp [rootFilesAcc, rootDirs, specSizeList, immSymSizes]
  | cons n ns ih =>
      simp [errFreeList, Bool.and_eq_true] at h
      have ihr := ih h.2
      cases n with
      | file name size ok =>
          have hok : ok = true := by simpa [errFree] using h.1
          subst hok
          cases showAll <;> cases hi : isHidden name <;>
            simp [rootFilesAcc, rootFileEntry, rootDirs_cons, specSizeList, specSize,
              immSymSizes, FSNode.name, FSNode.isDirNode, FSNode.infoOk,
              FSNode.lstatSize, hi] <;> omega
      | symlink name size ok =>
          have hok : ok = true := by simpa [errFree] using h.1
          subst hok
          cases showAll <;> cases hi : isHidden name <;>
            simp [rootFilesAcc, rootFileEntry, rootDirs_cons, specSizeList, specSize,
              immSymSizes, FSNode.name, FSNode.isDirNode, FSNode.infoOk,
              FSNode.lstatSize, hi] <;> omega
      | dir name readable cs =>
          have hspec := walkSums_spec showAll (FSNode.dir name readable cs) h.1
          cases showAll <;> cases hi : isHidden name <;>
            simp [rootFilesAcc, rootFileEntry, rootDirs_cons, specSizeList, specSize,
              immSymSizes, FSNode.name, FSNode.isDirNode, hi, hspec] <;> omega

/-- Unit bookkeeping of a whole error-free scan: the units of the file
loop plus the units of the dispatched subdirectory walks equal the
spec-side file-plus-symlink count. -/
theorem rootTotals_count (showAll : Bool) (ns : List FSNode)
    (h : errFreeList ns = true) :
    (rootFilesAcc showAll ns).2.2 +
      ((rootDirs showAll ns).map (fun n => (walkSums showAll n).2)).sum =
    specCountList showAll ns := by
  induction ns with
  | nil => simp [rootFilesAcc, rootDirs, specCountList]
  | cons n ns ih =>
      simp [errFreeList, Bool.and_eq_true] at h
      have ihr := ih h.2
      cases n with
      | file name size ok =>
          have hok : ok = true := by simpa [errFree] using h.1
          subst hok
          cases showAll <;> cases hi : isHidden name <;>
            simp [rootFilesAcc, rootFileEntry, rootDirs_cons, specCountList, specCount,
              FSNode.name, FSNode.isDirNode, FSNode.infoOk, hi] <;> omega
      | symlink name size ok =>
          have hok : ok = true := by simpa [errFree] using h.1
          subst hok
          cases showAll <;> cases hi : isHidden name <;>
            simp [rootFilesAcc, rootFileEntry, rootDirs_cons, specCountList, specCount,
              FSNode.name, FSNode.isDirNode, FSNode.infoOk, hi] <;> omega
      | dir name readable cs =>
          have hspec := walkSums_spec showAll (FSNode.dir name readable cs) h.1
          cases showAll <;> cases hi : isHidden name <;>
            simp [rootFilesAcc, rootFileEntry, rootDirs_cons, specCountList, specCount,
              FSNode.name, FSNode.isDirNode, hi, hspec] <;> omega

/-- Permuting one entry out of the middle of the pre-sort list. -/
theorem sortEntries_middle (F A B : List Entry) (e : Entry) :
    (sortEntries (F ++ (A ++ e :: B))).Perm (e :: sortEntries (F ++ (A ++ B))) := by
  have h1 := sortEntries_perm (F ++ (A ++ e :: B))
  have h2 : (F ++ (A ++ e :: B)).Perm (e :: (F ++ (A ++ B))) := by
    rw [show F ++ (A ++ e :: B) = (F ++ A) ++ e :: B by rw [List.append_assoc],
        show F ++ (A ++ B) = (F ++ A) ++ B by rw [List.append_assoc]]
    exact List.perm_middle
  have h3 := (sortEntries_perm (F ++ (A ++ B))).symm
  exact h1.trans (h2.trans (List.Perm.cons e h3))

/-! ### Claims -/

/-- C1, counterexample.  The claim says every symbolic link counted toward
`totalCount` contributes exactly 0 bytes to `totalSize`, also when it is
an immediate child of the root.  On a root whose only child is a symlink
of lstat size 5, the root loop treats the symlink as a file (it is not a
directory) and adds `info.Size()` of the link itself: `totalCount` is 1 —
the symlink is the one counted object — yet `totalSize` is 5, not 0. -/
theorem C1_counterexample :
    (scanCore true [FSNode.symlink "ln" 5 true] []).2.2 = 1 ∧
    (scanCore true [FSNode.symlink "ln" 5 true] []).2.1 = 5 ∧
    (5 : Nat) ≠ 0 := by
  refine ⟨by decide, by decide, by decide⟩

/-- C1, amended: a symbolic link visited by the subtree sizer (inside a
dispatched subdirectory) adds one unit and zero bytes, but a visible
immediate-child symlink at the root is processed by the file branch and
adds one unit and its own lstat size in bytes. -/
theorem C1_amended_symlink_contrib (showAll : Bool) (name : String)
    (size : Nat) (ok : Bool) (ns : List FSNode)
    (hvis : (showAll || !isHidden name) = true) :
    walkSums showAll (FSNode.symlink name size ok) = (0, 1) ∧
    rootFilesAcc showAll (FSNode.symlink name size true :: ns) =
      ((⟨name, size, "file"⟩ : Entry) :: (rootFilesAcc showAll ns).1,
       size + (rootFilesAcc showAll ns).2.1,
       1 + (rootFilesAcc showAll ns).2.2) := by
  have hh : (!showAll && isHidden name) = false := by
    cases showAll <;> simp_all
  constructor
  · simp [walkSums, hh]
  · simp [rootFilesAcc, rootFileEntry, FSNode.name, FSNode.isDirNode,
      FSNode.infoOk, FSNode.lstatSize, hh]

/-- C1, witness for the amended theorem at a concrete visible symlink. -/
theorem C1_witness :
    walkSums true (FSNode.symlink "s" 7 true) = (0, 1) ∧
    rootFilesAcc true [FSNode.symlink "s" 7 true] =
      ((⟨"s", 7, "file"⟩ : Entry) :: (rootFilesAcc true []).1,
       7 + (rootFilesAcc true []).2.1,
       1 + (rootFilesAcc true []).2.2) :=
  C1_amended_symlink_contrib true "s" 7 true [] (by decide)

unseal List.merge List.mergeSort in
/-- C2, counterexample.  The claim says a subdirectory that cannot be
walked is dropped entirely, with no Entry for it in the result list.  In
the code `sizeDir` never reports an error (its callback swallows the
`ReadDir` failure), so the aggregator's error branch never fires: the
unreadable subdirectory `a` still yields an Entry of size 0.  Root with
unreadable `a` (containing a 10-byte file) and readable `b` (containing a
7-byte file): the result list is `[b: 7, a: 0]` — an Entry for `a` does
appear — while the totals only count `b`. -/
theorem C2_counterexample :
    (scanCore false
        [FSNode.dir "a" false [FSNode.file "f" 10 true],
         FSNode.dir "b" true [FSNode.file "g" 7 true]]
        [FSNode.dir "a" false [FSNode.file "f" 10 true],
         FSNode.dir "b" true [FSNode.file "g" 7 true]]) =
      ([⟨"b", 7, "dir"⟩, ⟨"a", 0, "dir"⟩], 7, 1) ∧
    (⟨"a", 0, "dir"⟩ : Entry) ∈
      (scanCore false
        [FSNode.dir "a" false [FSNode.file "f" 10 true],
         FSNode.dir "b" true [FSNode.file "g" 7 true]]
        [FSNode.dir "a" false [FSNode.file "f" 10 true],
         FSNode.dir "b" true [FSNode.file "g" 7 true]]).1 := by
  constructor
  · decide
  · decide

/-- C2, amended: an immediate subdirectory that cannot be walked
contributes zero size and zero count to the totals — siblings are
unaffected — but it is not dropped from the result list: an Entry of kind
`dir` with size 0 appears for it. -/
theorem C2_amended_unreadable_subdir (showAll : Bool)
    (children : List FSNode) (name : String) (cs o1 o2 : List FSNode) :
    (scanCore showAll children (o1 ++ FSNode.dir name false cs :: o2)).2 =
      (scanCore showAll children (o1 ++ o2)).2 ∧
    (scanCore showAll children (o1 ++ FSNode.dir name false cs :: o2)).1.Perm
      ((⟨name, 0, "dir"⟩ : Entry) :: (scanCore showAll children (o1 ++ o2)).1) := by
  have hbad : dirEntryOf showAll (FSNode.dir name false cs) = ⟨name, 0, "dir"⟩ := by
    simp [dirEntryOf, walkSums_unreadable, FSNode.name]
  constructor
  · simp [scanCore, processDirResults_eq, List.map_append, List.sum_append,
      walkSums_unreadable, Prod.ext_iff]
  · simp only [scanCore, processDirResults_eq, List.map_append, List.map_cons, hbad]
    exact sortEntries_middle _ _ _ _

/-- C3, counterexample.  The claim says a failure to open the top-level
path for walking is propagated by `sizeDir` as a non-nil error.  The
callback's first branch returns nil on every incoming error, including
the one `WalkDir` reports when the top-level directory cannot be read (or
even lstat'ed), so `sizeDir` returns a nil error — with zero totals — on
an unreadable top-level directory. -/
theorem C3_counterexample :
    (sizeDir (FSNode.dir "locked" false [FSNode.file "f" 5 true]) false true).2 = none ∧
    sizeDir (FSNode.dir "locked" false [FSNode.file "f" 5 true]) false true =
      ((0, 0), none) ∧
    (sizeDir (FSNode.dir "locked" false [FSNode.file "f" 5 true]) false false).2 = none := by
  refine ⟨by decide, by decide, by decide⟩

/-- C3, amended: `sizeDir` never returns a non-nil error under any
condition — a failure to open the top-level path is swallowed like every
other error (yielding zero totals) — while every per-entry I/O error
inside the subtree skips just that entry and the walk continues. -/
theorem C3_amended_errors_swallowed (t : FSNode) (showAll : Bool) (statOk : Bool) :
    (sizeDir t showAll statOk).2 = none ∧
    (∀ name cs, sizeDir (FSNode.dir name false cs) showAll true = ((0, 0), none)) ∧
    (∀ st name size cs1 cs2,
        walkDirList showAll st (cs1 ++ FSNode.file name size false :: cs2) =
          walkDirList showAll st (cs1 ++ cs2)) ∧
    (∀ st name cs cs1 cs2,
        walkDirList showAll st (cs1 ++ FSNode.dir name false cs :: cs2) =
          walkDirList showAll st (cs1 ++ cs2)) := by
  refine ⟨?_, ?_, ?_, ?_⟩
  · cases statOk
    · simp [sizeDir_noStat]
    · simp [sizeDir_eq]
  · intro name cs; simp [sizeDir_eq, walkSums_unreadable]
  · intro st name size cs1 cs2
    simp [walkDirList_eq, walkSumsList_append, walkSumsList, walkSums_fileErr]
  · intro st name cs cs1 cs2
    simp [walkDirList_eq, walkSumsList_append, walkSumsList, walkSums_unreadable]

/-- C4, counterexample.  The claim says `totalSize` equals the sum of the
sizes of every non-hidden regular file reachable from the root.  A root
holding a symlink of lstat size 3 and a 4-byte regular file (no errors,
no hidden entries, no subdirectories — the completion order is the empty
dispatched list) yields `totalSize = 7`, while the reachable regular
files sum to 4: the immediate symlink's own size is added too. -/
theorem C4_counterexample :
    (scanCore true [FSNode.symlink "link" 3 true, FSNode.file "a" 4 true] []).2.1 = 7 ∧
    specSizeList true [FSNode.symlink "link" 3 true, FSNode.file "a" 4 true] = 4 ∧
    (7 : Nat) ≠ 4 := by
  refine ⟨by decide, by decide, by decide⟩

/-- C4, amended: on an error-free tree, for any completion order of the
dispatched subdirectories, `totalSize` equals the spec-side sum of the
sizes of every non-hidden regular file reachable from the root (with
recursive pruning of hidden directories) plus the lstat sizes of the
non-hidden immediate-child symlinks. -/
theorem C4_amended_totalSize (showAll : Bool) (children order : List FSNode)
    (hperm : order.Perm (rootDirs showAll children))
    (hfree : errFreeList children = true) :
    (scanCore showAll children order).2.1 =
      specSizeList showAll children + immSymSizes showAll children := by
  have hsum := (hperm.map (fun n => (walkSums showAll n).1)).sum_eq
  have hmain := rootTotals_size showAll children hfree
  simp only [scanCore]
  rw [processDirResults_eq]
  simp only []
  rw [hsum]
  omega

/-- C4, witness for the amended theorem: a root with a 2-byte file and a
subdirectory holding a 3-byte file and a symlink, scanned without hidden
entries, in submission order. -/
theorem C4_witness :
    errFreeList [FSNode.file "a" 2 true,
      FSNode.dir "d" true [FSNode.file "b" 3 true, FSNode.symlink "s" 9 true]] = true ∧
    (scanCore false
        [FSNode.file "a" 2 true,
         FSNode.dir "d" true [FSNode.file "b" 3 true, FSNode.symlink "s" 9 true]]
        (rootDirs false
          [FSNode.file "a" 2 true,
           FSNode.dir "d" true [FSNode.file "b" 3 true, FSNode.symlink "s" 9 true]])).2.1 =
      specSizeList false
        [FSNode.file "a" 2 true,
         FSNode.dir "d" true [FSNode.file "b" 3 true, FSNode.symlink "s" 9 true]] +
      immSymSizes false
        [FSNode.file "a" 2 true,
         FSNode.dir "d" true [FSNode.file "b" 3 true, FSNode.symlink "s" 9 true]] :=
  ⟨by decide,
   C4_amended_totalSize false
     [FSNode.file "a" 2 true,
      FSNode.dir "d" true [FSNode.file "b" 3 true, FSNode.symlink "s" 9 true]]
     (rootDirs false
       [FSNode.file "a" 2 true,
        FSNode.dir "d" true [FSNode.file "b" 3 true, FSNode.symlink "s" 9 true]])
     (List.Perm.refl _) (by decide)⟩

/-- C5: on an error-free tree, for any completion order of the dispatched
subdirectories, `totalCount` equals the spec-side number of non-hidden
regular files plus non-hidden symbolic links reachable from the root
(with recursive pruning of hidden directories); directories themselves
are never counted. -/
theorem C5_totalCount (showAll : Bool) (children order : List FSNode)
    (hperm : order.Perm (rootDirs showAll children))
    (hfree : errFreeList children = true) :
    (scanCore showAll children order).2.2 = specCountList showAll children := by
  have hsum := (hperm.map (fun n => (walkSums showAll n).2)).sum_eq
  have hmain := rootTotals_count showAll children hfree
  simp only [scanCore]
  rw [processDirResults_eq]
  simp only []
  rw [hsum]
  omega

/-- C5, witness: a root with an immediate symlink, a file, a hidden file,
and a subdirectory holding a file and a hidden subdirectory with a file,
scanned without hidden entries, in submission order. -/
theorem C5_witness :
    errFreeList [FSNode.symlink "s" 9 true, FSNode.file "a" 2 true,
      FSNode.file ".h" 4 true,
      FSNode.dir "d" true [FSNode.file "b" 3 true,
        FSNode.dir ".hd" true [FSNode.file "c" 6 true]]] = true ∧
    (scanCore false
        [FSNode.symlink "s" 9 true, FSNode.file "a" 2 true,
         FSNode.file ".h" 4 true,
         FSNode.dir "d" true [FSNode.file "b" 3 true,
           FSNode.dir ".hd" true [FSNode.file "c" 6 true]]]
        (rootDirs false
          [FSNode.symlink "s" 9 true, FSNode.file "a" 2 true,
           FSNode.file ".h" 4 true,
           FSNode.dir "d" true [FSNode.file "b" 3 true,
             FSNode.dir ".hd" true [FSNode.file "c" 6 true]]])).2.2 =
      specCountList false
        [FSNode.symlink "s" 9 true, FSNode.file "a" 2 true,
         FSNode.file ".h" 4 true,
         FSNode.dir "d" true [FSNode.file "b" 3 true,
           FSNode.dir ".hd" true [FSNode.file "c" 6 true]]] :=
  ⟨by decide,
   C5_totalCount false
     [FSNode.symlink "s" 9 true, FSNode.file "a" 2 true,
      FSNode.file ".h" 4 true,
      FSNode.dir "d" true [FSNode.file "b" 3 true,
        FSNode.dir ".hd" true [FSNode.file "c" 6 true]]]
     (rootDirs false
       [FSNode.symlink "s" 9 true, FSNode.file "a" 2 true,
        FSNode.file ".h" 4 true,
        FSNode.dir "d" true [FSNode.file "b" 3 true,
          FSNode.dir ".hd" true [FSNode.file "c" 6 true]]])
     (List.Perm.refl _) (by decide)⟩

/-- C6: for every scan result (any children, any completion order),
`totalSize` equals the sum of the `size` field over all entries of the
returned, sorted list — file entries carry their own bytes and each `dir`
entry carries the bytes of everything counted beneath it. -/
theorem C6_totalSize_eq_entrySum (showAll : Bool) (children order : List FSNode) :
    (scanCore showAll children order).2.1 =
      (((scanCore showAll children order).1).map Entry.size).sum := by
  have hf1 : (rootFilesAcc showAll children).2.1 =
      (((rootFilesAcc showAll children).1).map Entry.size).sum := by
    rw [rootFilesAcc_eq]
  have hd1 : (processDirResults showAll order).2.1 =
      (((processDirResults showAll order).1).map Entry.size).sum := by
    rw [processDirResults_eq, List.map_map]
    rfl
  have hperm := (sortEntries_perm ((rootFilesAcc showAll children).1 ++
      (processDirResults showAll order).1)).map Entry.size
  have hsum := hperm.sum_eq
  simp only [scanCore]
  rw [hsum, List.map_append, List.sum_append, hf1, hd1]

/-- C7: every produced entry list is sorted by size descending — for all
adjacent index pairs the left entry's size is at least the right one's
(no order is guaranteed among equal sizes). -/
theorem C7_sorted_desc (showAll : Bool) (children order : List FSNode) (i : Nat)
    (h : i + 1 < (scanCore showAll children order).1.length) :
    ((scanCore showAll children order).1.getD (i + 1) default).size ≤
      ((scanCore showAll children order).1.getD i default).size := by
  have hp : (scanCore showAll children order).1.Pairwise (fun a b => b.size ≤ a.size) := by
    simp only [scanCore]
    exact sortEntries_sorted _
  have hrel := List.pairwise_iff_get.1 hp ⟨i, by omega⟩ ⟨i + 1, h⟩ (by simp)
  simp only [List.get_eq_getElem] at hrel
  rw [List.getD_eq_getElem _ _ h, List.getD_eq_getElem _ _ (by omega)]
  exact hrel

unseal List.merge List.mergeSort in
/-- C7, witness: a two-file scan, checked at the only adjacent pair. -/
theorem C7_witness :
    0 + 1 < (scanCore false [FSNode.file "a" 1 true, FSNode.file "b" 2 true] []).1.length ∧
    ((scanCore false [FSNode.file "a" 1 true, FSNode.file "b" 2 true] []).1.getD
        (0 + 1) default).size ≤
      ((scanCore false [FSNode.file "a" 1 true, FSNode.file "b" 2 true] []).1.getD
        0 default).size :=
  ⟨by decide,
   C7_sorted_desc false [FSNode.file "a" 1 true, FSNode.file "b" 2 true] [] 0 (by decide)⟩

/-- C8: for a fixed tree and flag, the totals and the multiset of entries
do not depend on the completion order in which the per-subdirectory
results are merged: any two orders that are permutations of each other
give equal `totalSize` and `totalCount` and permuted entry lists. -/
theorem C8_order_invariance (showAll : Bool) (children o1 o2 : List FSNode)
    (h : o1.Perm o2) :
    (scanCore showAll children o1).2 = (scanCore showAll children o2).2 ∧
    (scanCore showAll children o1).1.Perm (scanCore showAll children o2).1 := by
  constructor
  · have h1 := (h.map (fun n => (walkSums showAll n).1)).sum_eq
    have h2 := (h.map (fun n => (walkSums showAll n).2)).sum_eq
    simp [scanCore, processDirResults_eq, h1, h2]
  · have hd : ((processDirResults showAll o1).1).Perm ((processDirResults showAll o2).1) := by
      rw [processDirResults_eq, processDirResults_eq]
      exact h.map _
    simp only [scanCore]
    exact (sortEntries_perm _).trans
      ((List.Perm.append_left _ hd).trans (sortEntries_perm _).symm)

/-- C8, witness: two single-file subdirectories merged in the two
possible completion orders. -/
theorem C8_witness :
    (scanCore false [] [FSNode.dir "x" true [FSNode.file "f" 1 true],
        FSNode.dir "y" true [FSNode.file "g" 2 true]]).2 =
      (scanCore false [] [FSNode.dir "y" true [FSNode.file "g" 2 true],
        FSNode.dir "x" true [FSNode.file "f" 1 true]]).2 ∧
    (scanCore false [] [FSNode.dir "x" true [FSNode.file "f" 1 true],
        FSNode.dir "y" true [FSNode.file "g" 2 true]]).1.Perm
      (scanCore false [] [FSNode.dir "y" true [FSNode.file "g" 2 true],
        FSNode.dir "x" true [FSNode.file "f" 1 true]]).1 :=
  C8_order_invariance false []
    [FSNode.dir "x" true [FSNode.file "f" 1 true],
     FSNode.dir "y" true [FSNode.file "g" 2 true]]
    [FSNode.dir "y" true [FSNode.file "g" 2 true],
     FSNode.dir "x" true [FSNode.file "f" 1 true]]
    (List.Perm.swap _ _ _)

/-- Closed form of the `formatBytes` loop: the divisor gets one factor of
1024 per iteration and the exponent counts the iterations. -/
theorem divExpLoop_eq (n div exp : Nat) :
    divExpLoop n div exp = (div * 1024 ^ logd n, exp + logd n) := by
  induction n using Nat.strong_induction_on generalizing div exp with
  | _ n ih =>
    by_cases h : 1024 ≤ n
    · have hlt : n / 1024 < n := Nat.div_lt_self (by omega) (by omega)
      rw [divExpLoop, logd]
      simp only [h, dif_pos]
      rw [ih (n / 1024) hlt]
      refine Prod.ext ?_ ?_
      · simp; ring
      · simp; omega
    · rw [divExpLoop, logd]
      simp [h]

/-- The loop stops below the next power: `n` is smaller than
`1024 ^ (logd n + 1)`. -/
theorem logd_upper (n : Nat) : n < 1024 ^ (logd n + 1) := by
  induction n using Nat.strong_induction_on with
  | _ n ih =>
    by_cases h : 1024 ≤ n
    · have hlt : n / 1024 < n := Nat.div_lt_self (by omega) (by omega)
      have hu := ih (n / 1024) hlt
      rw [logd]
      simp only [h, dif_pos]
      have hdm := Nat.div_add_mod n 1024
      have hmlt : n % 1024 < 1024 := Nat.mod_lt _ (by omega)
      calc n < 1024 * (n / 1024 + 1) := by omega
        _ ≤ 1024 * 1024 ^ (logd (n / 1024) + 1) :=
            Nat.mul_le_mul_left _ (by omega)
        _ = 1024 ^ (logd (n / 1024) + 1 + 1) := by ring
    · rw [logd]
      simp only [h, dif_neg, not_false_iff]
      simpa using by omega

/-- The loop runs long enough: for positive `n`, `1024 ^ logd n` is at
most `n`. -/
theorem logd_lower (n : Nat) : 1 ≤ n → 1024 ^ logd n ≤ n := by
  induction n using Nat.strong_induction_on with
  | _ n ih =>
    intro h1
    by_cases h : 1024 ≤ n
    · have hlt : n / 1024 < n := Nat.div_lt_self (by omega) (by omega)
      have hdm := Nat.div_add_mod n 1024
      have h1d : 1 ≤ n / 1024 := by omega
      have hl := ih (n / 1024) hlt h1d
      rw [logd]
      simp only [h, dif_pos]
      calc 1024 ^ (logd (n / 1024) + 1) = 1024 ^ logd (n / 1024) * 1024 := by ring
        _ ≤ n / 1024 * 1024 := Nat.mul_le_mul_right _ hl
        _ ≤ n := by omega
    · rw [logd]
      simp [h, h1]

/-- Position of `b` between consecutive powers of 1024, in terms of the
loop's exponent. -/
theorem fbExp_bounds (b : Int) (hb : 1024 ≤ b) :
    1024 ^ (fbExp b + 1) ≤ b.toNat ∧ b.toNat < 1024 ^ (fbExp b + 2) := by
  have hbn : 1024 ≤ b.toNat := by omega
  have hfb : fbExp b = logd (b.toNat / 1024) := by
    simp [fbExp, divExpLoop_eq]
  have hdm := Nat.div_add_mod b.toNat 1024
  have hmlt : b.toNat % 1024 < 1024 := Nat.mod_lt _ (by omega)
  have h1d : 1 ≤ b.toNat / 1024 := by omega
  constructor
  · have hl := logd_lower (b.toNat / 1024) h1d
    calc 1024 ^ (fbExp b + 1) = 1024 ^ logd (b.toNat / 1024) * 1024 := by
          rw [hfb]; ring
      _ ≤ b.toNat / 1024 * 1024 := Nat.mul_le_mul_right _ hl
      _ ≤ b.toNat := by omega
  · have hu := logd_upper (b.toNat / 1024)
    calc b.toNat < 1024 * (b.toNat / 1024 + 1) := by omega
      _ ≤ 1024 * 1024 ^ (logd (b.toNat / 1024) + 1) :=
          Nat.mul_le_mul_left _ (by omega)
      _ = 1024 ^ (fbExp b + 2) := by rw [hfb]; ring

/-- C9: the byte formatter prints any value below 1024 as a plain integer
byte count; any larger value is rendered with one decimal place (the
`scaled` form stands for the `"%.1f %cB"` format) as `b` over the divisor
`1024 ^ (exp + 1)`, where the exponent produced by successive integer
division by 1024 locates `b` between consecutive powers of 1024 and
selects the suffix from the ordered list K, M, G, T, P, E. -/
theorem C9_formatBytes (b : Int) :
    (b < 1024 → formatBytes b = ByteFormat.plain b) ∧
    (1024 ≤ b →
      formatBytes b =
        ByteFormat.scaled b (1024 ^ (fbExp b + 1)) (byteUnits.get? (fbExp b)) ∧
      1024 ^ (fbExp b + 1) ≤ b.toNat ∧ b.toNat < 1024 ^ (fbExp b + 2)) := by
  constructor
  · intro h
    simp [formatBytes, h]
  · intro h
    have hnlt : ¬ b < 1024 := by omega
    refine ⟨?_, fbExp_bounds b h⟩
    have hdiv : (divExpLoop (b.toNat / 1024) 1024 0).1 = 1024 ^ (fbExp b + 1) := by
      simp [divExpLoop_eq, fbExp]
      ring
    rw [formatBytes, if_neg hnlt, hdiv]
    rfl

/-- C9, witness: 512 bytes print plainly; 2048 bytes take the scaled
form with the computed divisor and suffix. -/
theorem C9_witness :
    formatBytes 512 = ByteFormat.plain 512 ∧
    formatBytes 2048 =
      ByteFormat.scaled 2048 (1024 ^ (fbExp 2048 + 1)) (byteUnits.get? (fbExp 2048)) :=
  ⟨(C9_formatBytes 512).1 (by decide),
   ((C9_formatBytes 2048).2 (by decide)).1⟩

/-- C10: `formatBytes` is total on int64 inputs and never indexes
`"KMGTPE"` out of bounds: every input below 1024 — including every
negative value — takes the plain branch, and for every input at least
1024 the computed exponent is at most 5, the last valid index, because an
int64 value is below `1024 ^ 7`; the suffix lookup therefore always
succeeds. -/
theorem C10_formatBytes_safe (b : Int) (hlo : -(2 ^ 63) ≤ b) (hhi : b < 2 ^ 63) :
    (b < 1024 → formatBytes b = ByteFormat.plain b) ∧
    (1024 ≤ b →
      fbExp b ≤ 5 ∧ fbExp b < byteUnits.length ∧
      (byteUnits.get? (fbExp b)).isSome = true) := by
  constructor
  · intro h
    simp [formatBytes, h]
  · intro h
    have hb := fbExp_bounds b h
    have hle : fbExp b ≤ 5 := by
      by_contra hc
      push_neg at hc
      have h7 : (7 : Nat) ≤ fbExp b + 1 := by omega
      have hp : (1024 : Nat) ^ 7 ≤ 1024 ^ (fbExp b + 1) :=
        Nat.pow_le_pow_right (by omega) h7
      have h63 : b.toNat < 2 ^ 63 := by omega
      have : (1024 : Nat) ^ 7 ≤ b.toNat := le_trans hp hb.1
      norm_num at this
      omega
    have hlen : fbExp b < byteUnits.length := by
      simp [byteUnits]
      omega
    refine ⟨hle, hlen, ?_⟩
    rw [List.get?_eq_get hlen]
    rfl

/-- C10, witness: the largest power-of-two int64 sample and a negative
sample. -/
theorem C10_witness :
    fbExp (2 ^ 62) ≤ 5 ∧ (byteUnits.get? (fbExp (2 ^ 62))).isSome = true ∧
    formatBytes (-7) = ByteFormat.plain (-7) :=
  ⟨(((C10_formatBytes_safe (2 ^ 62) (by decide) (by decide)).2 (by decide))).1,
   (((C10_formatBytes_safe (2 ^ 62) (by decide) (by decide)).2 (by decide))).2.2,
   (C10_formatBytes_safe (-7) (by decide) (by decide)).1 (by decide)⟩

end Sizer
